import Mathlib

/-!
Shallow embedding of `src/scripts/spanish.py` (a comment-language scanner
script) and verification of its specified properties.

Python strings are modelled as `List Char` (`Str`), so that the character
level operations of the script (`str.split`, `str.strip`, the regular
expression search for `//`) are executable structural recursions.
-/

set_option autoImplicit false

namespace Spanish

/-- Python strings, modelled as lists of characters. -/
abbrev Str := List Char

/-- The ASCII whitespace characters recognised by Python `str.strip()` and
by the regex class matching whitespace.  (Python additionally treats some
exotic Unicode spaces as whitespace; none is material to the script.) -/
def pyIsSpace (c : Char) : Bool :=
  c = ' ' || c = '\t' || c = '\n' || c = '\r' || c = '\x0b' || c = '\x0c'

/-- Python `s.strip()`: remove leading and trailing whitespace. -/
def pyStrip (s : Str) : Str :=
  (((s.dropWhile pyIsSpace).reverse).dropWhile pyIsSpace).reverse

/-- Split at the first occurrence of `sep`: returns the part before and the
part after, or `none` when `sep` does not occur. -/
def splitFirst (sep : Char) : Str → Option (Str × Str)
  | [] => none
  | c :: cs =>
    if c = sep then some ([], cs)
    else (splitFirst sep cs).map (fun p => (c :: p.1, p.2))

/-- Python `line.split(sep, 2)` (`maxsplit = 2`): at most three parts; any
separator occurrences past the second stay inside the last part. -/
def pySplit2 (sep : Char) (s : Str) : List Str :=
  match splitFirst sep s with
  | none => [s]
  | some (a, rest) =>
    match splitFirst sep rest with
    | none => [a, rest]
    | some (b, rest2) => [a, b, rest2]

/-- Python `s.split(sep)` with no `maxsplit`: split at every occurrence. -/
def pySplitAll (sep : Char) : Str → List Str
  | [] => [[]]
  | c :: cs =>
    if c = sep then [] :: pySplitAll sep cs
    else
      match pySplitAll sep cs with
      | [] => [[c]]
      | p :: ps => (c :: p) :: ps

/-- The suffix of `s` following the first occurrence of the two-character
comment delimiter `//`, or `none` when `//` does not occur.  This is where
`re.search` anchors the pattern of the script. -/
def afterSlashes : Str → Option Str
  | [] => none
  | c :: cs =>
    if c = '/' ∧ cs.head? = some '/' then some cs.tail else afterSlashes cs

/-- The comment text the regex match produces from the suffix after the
delimiter: the pattern skips whitespace greedily, the group captures up to
the end of line, and the script strips the captured group. -/
def commentTextOf (rest : Str) : Str :=
  pyStrip ((rest.dropWhile pyIsSpace).takeWhile (fun c => c ≠ '\n'))

/-- One parsed comment: the dict of file, line, content and comment text
built by `get_rust_comments`. -/
structure CommentRec where
  file : Str
  line : Str
  content : Str
  comment_text : Str
deriving DecidableEq, Repr

/-- The `defaultdict(list)` of the script, as an insertion-ordered
association list from language code to list of comment records. -/
abbrev BucketMap := List (Str × List CommentRec)

/-- Appending through `comments_by_lang[k].append(r)` on a
`defaultdict(list)`: append `r` to the bucket of `k`, creating the bucket
(at the end, preserving dict insertion order) when `k` is not yet a
key. -/
def bucketAppend (m : BucketMap) (k : Str) (r : CommentRec) : BucketMap :=
  match m with
  | [] => [(k, [r])]
  | (k', rs) :: rest =>
    if k' = k then (k', rs ++ [r]) :: rest else (k', rs) :: bucketAppend rest k r

/-- Reading through `comments_by_lang.get(k, [])`: the bucket of `k`, or
the empty list when `k` is not a key.  A plain `dict.get` never
inserts. -/
def bucketGet (m : BucketMap) (k : Str) : List CommentRec :=
  match m with
  | [] => []
  | (k', rs) :: rest => if k' = k then rs else bucketGet rest k

/-- The fallback bucket key used on classification failure. -/
def unknownKey : Str := "unknown".data

/-- The Spanish language code that the output stage selects. -/
def esKey : Str := "es".data

/-- The body of the `for line in comments` loop of `get_rust_comments`:
skip blank lines, split `file:line:content` on the first two colons, skip
lines with fewer than three parts, extract the text after the first `//`,
skip it when no delimiter occurs or when the text has length `≤ 3`,
classify it with `detect` and append the record to the bucket of the
detected language, or to the `unknown` bucket when `detect` raises
(modelled as `detect` returning `none`). -/
def processLine (detect : Str → Option Str) (m : BucketMap) (line : Str) :
    BucketMap :=
  if pyStrip line = [] then m
  else
    match pySplit2 ':' line with
    | [filename, line_num, content] =>
      match afterSlashes content with
      | some rest =>
        let comment_text := commentTextOf rest
        if comment_text.length > 3 then
          match detect comment_text with
          | some lang =>
            bucketAppend m lang ⟨filename, line_num, pyStrip content, comment_text⟩
          | none =>
            bucketAppend m unknownKey ⟨filename, line_num, pyStrip content, comment_text⟩
        else m
      | none => m
    | _ => m

/-- The whole scan loop over the captured standard output lines. -/
def processLines (detect : Str → Option Str) (m : BucketMap) (ls : List Str) :
    BucketMap :=
  ls.foldl (processLine detect) m

/-- The outcome of the `subprocess.run(["rg", ...])` call as seen by the
script.  `check` is not set on the call, so a process that ran and exited
with a nonzero status raises nothing: `ran` carries the exit status only to
record it, and the script reads `result.stdout` regardless.  When the
executable cannot be spawned at all, Python raises `FileNotFoundError`
(`spawnFailed`). -/
inductive SearchOutcome where
  | ran (stdout : Str) (exitcode : Nat)
  | spawnFailed (msg : Str)
deriving DecidableEq

/-- The externals one run of the script observes: whether
`os.path.exists(directory)` holds, and what the search subprocess does. -/
structure Env where
  dirExists : Bool
  search : SearchOutcome

/-- The Python exceptions that `main` distinguishes. -/
inductive PyExc where
  | fileNotFoundError (msg : Str)
  | calledProcessError
  | otherError (msg : Str)
deriving DecidableEq

/-- The phase of `get_rust_comments` after the directory check: run the
search subprocess, split its stdout on newlines, and process every line. -/
def searchPhase (detect : Str → Option Str) (s : SearchOutcome) :
    Except PyExc BucketMap :=
  match s with
  | .spawnFailed msg => .error (.fileNotFoundError msg)
  | .ran stdout _ => .ok (processLines detect [] (pySplitAll '\n' stdout))

/-- The scan entry point `get_rust_comments(directory)`: raise
`FileNotFoundError` when the directory does not exist, otherwise invoke
the search and bucket every comment by detected language. -/
def get_rust_comments (detect : Str → Option Str) (env : Env)
    (directory : Str) : Except PyExc BucketMap :=
  if env.dirExists then searchPhase detect env.search
  else .error (.fileNotFoundError ("Directory not found: ".data ++ directory))

/-- Python `comments_by_lang.get(k, [])` as a state-passing dictionary
access: it yields the stored bucket (or the default) and the dictionary as
the access leaves it.  `dict.get` never inserts, unlike `defaultdict`
subscripting, so the dictionary comes back unchanged. -/
def dictGet (m : BucketMap) (k : Str) : List CommentRec × BucketMap :=
  (bucketGet m k, m)

/-- The output stage `print_comments_by_language`: print the header and,
for each record of the `es` bucket, its file, line and content lines.
Returns the printed lines together with the bucket map as the function
leaves it. -/
def print_comments_by_language (m : BucketMap) : List Str × BucketMap :=
  let (es, m1) := dictGet m esKey
  ("\n=== Spanish Comments (es) ===".data ::
    es.flatMap (fun c =>
      [ "\nFile: ".data ++ c.file,
        "Line: ".data ++ c.line,
        "Content: ".data ++ c.content ]),
   m1)

/-- The `files_to_translate[comment['file']] += 1` update on the
`defaultdict(int)`: bump the count of `k`, inserting `k` with count 1 (at
the end, preserving dict insertion order) when it is not yet a key. -/
def bump (acc : List (Str × Nat)) (k : Str) : List (Str × Nat) :=
  match acc with
  | [] => [(k, 1)]
  | (k', n) :: rest =>
    if k' = k then (k', n + 1) :: rest else (k', n) :: bump rest k

/-- The `files_to_translate` dictionary of `generate_translation_todo`: the
per-file tally of the records in the `es` bucket, in first-seen order. -/
def filesToTranslate (m : BucketMap) : List (Str × Nat) :=
  (bucketGet m esKey).foldl (fun acc r => bump acc r.file) []

/-- Render one Nat in decimal, as Python string interpolation would. -/
def natStr (n : Nat) : Str := (toString n).data

/-- The summary stage `generate_translation_todo`: print the summary
header and one count line per file of the `es` bucket.  Returns the
printed lines together with the bucket map as the function leaves it. -/
def generate_translation_todo (m : BucketMap) : List Str × BucketMap :=
  let (es, m1) := dictGet m esKey
  let files := es.foldl (fun acc r => bump acc r.file) []
  ("\n=== Files to Translate Summary ===".data ::
    files.map (fun p =>
      "\n".data ++ p.1 ++ ": ".data ++ natStr p.2 ++ " Spanish comments".data),
   m1)

/-- The body of `main` after argument parsing: run the scan inside the
`try`/`except` ladder and return every printed line.  The three handlers
mirror the source: `FileNotFoundError` prints the message carried by the
exception, `subprocess.CalledProcessError` prints the dedicated
search-failure message, and any other exception prints the generic
message. -/
def mainRun (detect : Str → Option Str) (env : Env) (directory : Str) :
    List Str :=
  match get_rust_comments detect env directory with
  | .ok m => (print_comments_by_language m).1 ++ (generate_translation_todo m).1
  | .error (.fileNotFoundError msg) => ["Error: ".data ++ msg]
  | .error .calledProcessError =>
      ["Error: Unable to search in directory: ".data ++ directory]
  | .error (.otherError msg) =>
      ["Error: An unexpected error occurred: ".data ++ msg]

/-! Specification-side helpers: a per-line summary of what the loop body
does, and counting functions used to state the summary properties. -/

/-- What one loop iteration contributes: `none` when the line is skipped
(blank, malformed, delimiter-free or too short), otherwise the bucket key
and record it appends.  `processLine_eq_lineRecord` proves this matches the
loop body. -/
def lineRecord (detect : Str → Option Str) (line : Str) :
    Option (Str × CommentRec) :=
  if pyStrip line = [] then none
  else
    match pySplit2 ':' line with
    | [filename, line_num, content] =>
      match afterSlashes content with
      | some rest =>
        let comment_text := commentTextOf rest
        if comment_text.length > 3 then
          match detect comment_text with
          | some lang =>
            some (lang, ⟨filename, line_num, pyStrip content, comment_text⟩)
          | none =>
            some (unknownKey, ⟨filename, line_num, pyStrip content, comment_text⟩)
        else none
      | none => none
    | _ => none

/-- The records that the lines `ls` contribute to the bucket of `lang`, in
scan order. -/
def recordsDetected (detect : Str → Option Str) (lang : Str)
    (ls : List Str) : List CommentRec :=
  ls.filterMap (fun l =>
    match lineRecord detect l with
    | some (k, r) => if k = lang then some r else none
    | none => none)

/-- How many records of `recs` carry the file name `f`. -/
def fileCount (f : Str) : List CommentRec → Nat
  | [] => 0
  | r :: rs => (if r.file = f then 1 else 0) + fileCount f rs

/-- The count stored for key `f` in a tally list, `0` when absent. -/
def getCount (acc : List (Str × Nat)) (f : Str) : Nat :=
  match acc with
  | [] => 0
  | (k, n) :: rest => if k = f then n else getCount rest f

/-- The keys of a tally list, in insertion order. -/
def tallyKeys (acc : List (Str × Nat)) : List Str :=
  acc.map Prod.fst

/-! Helper lemmas. -/

theorem splitFirst_some (sep : Char) (s a rest : Str)
    (h : splitFirst sep s = some (a, rest)) :
    sep ∉ a ∧ s = a ++ sep :: rest := by
  induction s generalizing a with
  | nil => simp [splitFirst] at h
  | cons c cs ih =>
    rw [splitFirst] at h
    by_cases hc : c = sep
    · rw [if_pos hc, Option.some.injEq] at h
      obtain ⟨rfl, rfl⟩ := Prod.mk.injEq .. ▸ h
      simp [hc]
    · rw [if_neg hc] at h
      cases h2 : splitFirst sep cs with
      | none => rw [h2] at h; simp at h
      | some p =>
        obtain ⟨a', rest'⟩ := p
        rw [h2] at h
        simp only [Option.map, Option.some.injEq, Prod.mk.injEq] at h
        obtain ⟨rfl, rfl⟩ := h
        obtain ⟨hna, hs⟩ := ih a' h2
        constructor
        · intro hmem
          rcases List.mem_cons.mp hmem with h1 | h1
          · exact hc h1.symm
          · exact hna h1
        · rw [hs]; rfl

theorem dropWhile_pyIsSpace_idem (l : Str) :
    (l.dropWhile pyIsSpace).dropWhile pyIsSpace = l.dropWhile pyIsSpace := by
  induction l with
  | nil => rfl
  | cons c cs ih =>
    by_cases h : pyIsSpace c
    · simp [List.dropWhile_cons, h, ih]
    · simp [List.dropWhile_cons, h]

theorem pyStrip_dropWhile (s : Str) :
    pyStrip (s.dropWhile pyIsSpace) = pyStrip s := by
  unfold pyStrip
  rw [dropWhile_pyIsSpace_idem]

theorem afterSlashes_eq_none (s : Str)
    (h : ∀ a b : Str, s ≠ a ++ '/' :: '/' :: b) :
    afterSlashes s = none := by
  induction s with
  | nil => rfl
  | cons c cs ih =>
    rw [afterSlashes, if_neg, ih]
    · intro a b hab
      exact h (c :: a) b (by rw [List.cons_append, hab])
    · rintro ⟨hc, hhd⟩
      cases cs with
      | nil => simp at hhd
      | cons c2 t =>
        simp only [List.head?_cons, Option.some.injEq] at hhd
        exact h [] t (by rw [hc, hhd]; rfl)

theorem processLine_eq_lineRecord (detect : Str → Option Str) (m : BucketMap)
    (line : Str) :
    processLine detect m line =
      match lineRecord detect line with
      | none => m
      | some (k, r) => bucketAppend m k r := by
  by_cases h0 : pyStrip line = []
  · simp [processLine, lineRecord, h0]
  · rcases hps : pySplit2 ':' line with _ | ⟨f, _ | ⟨ln, _ | ⟨content, _ | ⟨d, t⟩⟩⟩⟩ <;>
      simp only [processLine, lineRecord, h0, if_false, hps]
    cases has : afterSlashes content with
    | none => rfl
    | some rest =>
      by_cases hl : (commentTextOf rest).length > 3
      · cases hd : detect (commentTextOf rest) with
        | none => simp [hl, hd]
        | some lang => simp [hl, hd]
      · simp [hl]

theorem bucketGet_bucketAppend (m : BucketMap) (k lang : Str)
    (r : CommentRec) :
    bucketGet (bucketAppend m k r) lang =
      if k = lang then bucketGet m lang ++ [r] else bucketGet m lang := by
  induction m with
  | nil =>
    by_cases h : k = lang <;> simp [bucketAppend, bucketGet, h]
  | cons p rest ih =>
    obtain ⟨k', rs⟩ := p
    rw [bucketAppend]
    by_cases h1 : k' = k
    · subst h1
      by_cases h2 : k' = lang <;> simp [bucketGet, h2]
    · rw [if_neg h1, bucketGet]
      by_cases h2 : k' = lang
      · have : ¬ k = lang := fun hk => h1 (h2.trans hk.symm)
        simp [bucketGet, h2, this]
      · simp [bucketGet, h2, ih]

theorem bucketGet_processLines (detect : Str → Option Str) (m : BucketMap)
    (ls : List Str) (lang : Str) :
    bucketGet (processLines detect m ls) lang =
      bucketGet m lang ++ recordsDetected detect lang ls := by
  induction ls generalizing m with
  | nil => simp [processLines, recordsDetected]
  | cons l t ih =>
    have step : processLines detect m (l :: t) =
        processLines detect (processLine detect m l) t := rfl
    rw [step, ih, processLine_eq_lineRecord]
    cases hlr : lineRecord detect l with
    | none => simp [recordsDetected, hlr]
    | some p =>
      obtain ⟨k, r⟩ := p
      by_cases hk : k = lang
      · subst hk
        simp [recordsDetected, hlr, bucketGet_bucketAppend]
      · simp [recordsDetected, hlr, bucketGet_bucketAppend, hk]

theorem getCount_bump (acc : List (Str × Nat)) (k f : Str) :
    getCount (bump acc k) f =
      if k = f then getCount acc f + 1 else getCount acc f := by
  induction acc with
  | nil =>
    by_cases h : k = f <;> simp [bump, getCount, h]
  | cons p rest ih =>
    obtain ⟨k', n⟩ := p
    rw [bump]
    by_cases h1 : k' = k
    · subst h1
      by_cases h2 : k' = f <;> simp [getCount, h2]
    · rw [if_neg h1, getCount]
      by_cases h2 : k' = f
      · have : ¬ k = f := fun hk => h1 (hk.symm ▸ h2)
        simp [getCount, h2, this]
      · simp [getCount, h2, ih]

theorem mem_tallyKeys_bump (acc : List (Str × Nat)) (k f : Str) :
    f ∈ tallyKeys (bump acc k) ↔ f ∈ tallyKeys acc ∨ f = k := by
  induction acc with
  | nil => simp [bump, tallyKeys]
  | cons p rest ih =>
    obtain ⟨k', n⟩ := p
    rw [bump]
    by_cases h1 : k' = k
    · subst h1
      rw [if_pos rfl]
      simp only [tallyKeys, List.map_cons, List.mem_cons]
      tauto
    · rw [if_neg h1]
      simp only [tallyKeys, List.map_cons, List.mem_cons] at ih ⊢
      rw [ih]
      tauto

theorem tallyKeys_bump_nodup (acc : List (Str × Nat)) (k : Str)
    (h : (tallyKeys acc).Nodup) : (tallyKeys (bump acc k)).Nodup := by
  induction acc with
  | nil => simp [bump, tallyKeys]
  | cons p rest ih =>
    obtain ⟨k', n⟩ := p
    simp only [tallyKeys, List.map_cons, List.nodup_cons] at h
    rw [bump]
    by_cases h1 : k' = k
    · rw [if_pos h1]
      simpa [tallyKeys, List.nodup_cons] using h
    · rw [if_neg h1]
      simp only [tallyKeys, List.map_cons, List.nodup_cons]
      refine ⟨fun hm => ?_, ih h.2⟩
      rcases (mem_tallyKeys_bump rest k k').mp hm with hm2 | hm2
      · exact h.1 hm2
      · exact h1 hm2

theorem getCount_of_mem (acc : List (Str × Nat)) (f : Str) (c : Nat)
    (hnd : (tallyKeys acc).Nodup) (hm : (f, c) ∈ acc) :
    getCount acc f = c := by
  induction acc with
  | nil => simp at hm
  | cons p rest ih =>
    obtain ⟨k', n⟩ := p
    simp only [tallyKeys, List.map_cons, List.nodup_cons] at hnd
    rcases List.mem_cons.mp hm with h | h
    · obtain ⟨rfl, rfl⟩ := Prod.mk.injEq .. ▸ h
      simp [getCount]
    · rw [getCount]
      by_cases h2 : k' = f
      · exfalso
        apply hnd.1
        subst h2
        exact List.mem_map.mpr ⟨(k', c), h, rfl⟩
      · rw [if_neg h2]
        exact ih hnd.2 h

theorem tally_foldl_bump (recs : List CommentRec) (acc : List (Str × Nat)) :
    (∀ f, getCount (recs.foldl (fun a r => bump a r.file) acc) f =
        getCount acc f + fileCount f recs)
    ∧ (∀ f, f ∈ tallyKeys (recs.foldl (fun a r => bump a r.file) acc) ↔
        f ∈ tallyKeys acc ∨ f ∈ recs.map CommentRec.file)
    ∧ ((tallyKeys acc).Nodup →
        (tallyKeys (recs.foldl (fun a r => bump a r.file) acc)).Nodup) := by
  induction recs generalizing acc with
  | nil => simp [fileCount]
  | cons r t ih =>
    simp only [List.foldl_cons]
    obtain ⟨ihc, ihk, ihn⟩ := ih (bump acc r.file)
    refine ⟨fun f => ?_, fun f => ?_, fun hnd => ihn (tallyKeys_bump_nodup acc r.file hnd)⟩
    · rw [ihc f, getCount_bump, fileCount]
      by_cases h : r.file = f
      · simp only [if_pos h]
        omega
      · simp only [if_neg h]
        omega
    · rw [ihk f, mem_tallyKeys_bump]
      simp only [List.map_cons, List.mem_cons]
      tauto

/-! The claims. -/

/-- C1: the claim says a failing external search is caught as
`subprocess.CalledProcessError` and reported with the dedicated
`Unable to search in directory` message.  The source calls
`subprocess.run` without `check=True`, so that exception is never raised:
no run of `get_rust_comments` can produce it (first conjunct), a search
that ran and exited with a nonzero status is processed as if it had
succeeded and the normal (empty) summary is printed (second conjunct), and
a search executable that cannot be spawned raises `FileNotFoundError`,
which the not-found handler prints (third conjunct). -/
theorem C1_search_failure_not_reported_distinctly :
    (∀ (detect : Str → Option Str) (env : Env) (d : Str),
      get_rust_comments detect env d ≠ .error .calledProcessError)
    ∧ mainRun (fun _ => none) ⟨true, .ran [] 2⟩ "dir".data =
        ["\n=== Spanish Comments (es) ===".data,
         "\n=== Files to Translate Summary ===".data]
    ∧ mainRun (fun _ => none)
        ⟨true, .spawnFailed "No such file or directory: rg".data⟩ "dir".data =
        ["Error: No such file or directory: rg".data] := by
  refine ⟨?_, by decide, by decide⟩
  intro detect env d h
  obtain ⟨de, s⟩ := env
  cases de
  · simp [get_rust_comments] at h
  · cases s with
    | ran out code => simp [get_rust_comments, searchPhase] at h
    | spawnFailed msg => simp [get_rust_comments, searchPhase] at h

/-- C2: when the directory does not exist, `get_rust_comments` raises
`FileNotFoundError` with the `Directory not found` message — independently
of whatever the search subprocess would have done, i.e. before invoking
it — and `main` catches it and prints the not-found message (no exception
escapes: `mainRun` is a total function).  When the directory exists, the
validation passes and the run proceeds to the search phase. -/
theorem C2_directory_validation (detect : Str → Option Str) (d : Str)
    (s : SearchOutcome) :
    (get_rust_comments detect ⟨false, s⟩ d =
        .error (.fileNotFoundError ("Directory not found: ".data ++ d))
      ∧ mainRun detect ⟨false, s⟩ d =
          ["Error: ".data ++ ("Directory not found: ".data ++ d)])
    ∧ get_rust_comments detect ⟨true, s⟩ d = searchPhase detect s :=
  ⟨⟨rfl, rfl⟩, rfl⟩

/-- C3: a line whose extracted comment text has length `≤ 3` contributes
no record: the loop body leaves the bucket map unchanged, whatever the
detector would have classified the text as. -/
theorem C3_short_comment_text_discarded (detect : Str → Option Str)
    (m : BucketMap) (line f ln content rest : Str)
    (hsplit : pySplit2 ':' line = [f, ln, content])
    (hrest : afterSlashes content = some rest)
    (hshort : (commentTextOf rest).length ≤ 3) :
    processLine detect m line = m := by
  have h3 : ¬ (commentTextOf rest).length > 3 := by omega
  by_cases hb : pyStrip line = []
  · simp [processLine, hb]
  · simp [processLine, hb, hsplit, hrest, h3]

/-- Witness for C3 at the line `a:1:// ab` (comment text `ab`, length 2). -/
theorem C3_short_comment_text_discarded_witness :
    (commentTextOf " ab".data).length ≤ 3
    ∧ processLine (fun _ => some esKey) [] "a:1:// ab".data = [] :=
  ⟨by decide,
   C3_short_comment_text_discarded (fun _ => some esKey) [] "a:1:// ab".data
     "a".data "1".data "// ab".data " ab".data
     (by decide) (by decide) (by decide)⟩

/-- C10: `print_comments_by_language` and `generate_translation_todo` read
the bucket map only through `dict.get`, which never inserts; both leave
the map exactly as given (also when the `es` key is absent, e.g. on the
empty map). -/
theorem C10_output_functions_read_only (m : BucketMap) :
    (print_comments_by_language m).2 = m ∧ (generate_translation_todo m).2 = m :=
  ⟨rfl, rfl⟩

/-- C5: when the surviving comment text fails classification (`detect`
raises, modelled as `none`), the record is appended to the `unknown`
bucket (first conjunct); it carries exactly the file, line, content and
comment-text fields that a successful classification would have stored
(second conjunct, for any succeeding detector); and no error escapes:
with the directory present and the search ran, `get_rust_comments`
returns a bucket map for every detector (third conjunct). -/
theorem C5_classification_failure_fallback (detect : Str → Option Str)
    (m : BucketMap) (line f ln content rest : Str)
    (hnb : ¬ pyStrip line = [])
    (hsplit : pySplit2 ':' line = [f, ln, content])
    (hrest : afterSlashes content = some rest)
    (hlen : (commentTextOf rest).length > 3)
    (hfail : detect (commentTextOf rest) = none) :
    processLine detect m line =
      bucketAppend m unknownKey ⟨f, ln, pyStrip content, commentTextOf rest⟩
    ∧ (∀ (detect2 : Str → Option Str) (lang : Str),
        detect2 (commentTextOf rest) = some lang →
        processLine detect2 m line =
          bucketAppend m lang ⟨f, ln, pyStrip content, commentTextOf rest⟩)
    ∧ (∀ (stdout : Str) (code : Nat) (d : Str),
        ∃ bm, get_rust_comments detect ⟨true, .ran stdout code⟩ d = .ok bm) := by
  refine ⟨?_, ?_, fun stdout code d => ⟨_, rfl⟩⟩
  · simp [processLine, hnb, hsplit, hrest, hlen, hfail]
  · intro detect2 lang h2
    simp [processLine, hnb, hsplit, hrest, hlen, h2]

/-- Witness for C5 at the line `a.rs:7:x; // hola amigo` with an
always-failing detector. -/
theorem C5_classification_failure_fallback_witness :
    ((fun (_ : Str) => (none : Option Str)) "hola amigo".data = none)
    ∧ processLine (fun _ => none) [] "a.rs:7:x; // hola amigo".data =
        bucketAppend [] unknownKey
          ⟨"a.rs".data, "7".data, "x; // hola amigo".data, "hola amigo".data⟩ :=
  ⟨rfl,
   (C5_classification_failure_fallback (fun _ => none) []
     "a.rs:7:x; // hola amigo".data "a.rs".data "7".data
     "x; // hola amigo".data " hola amigo".data
     (by decide) (by decide) (by decide) (by decide) rfl).1⟩

/-- C6: a line that splits into fewer than three colon-separated parts is
skipped: the loop body leaves the map unchanged (and raises nothing — it
is a total function), and the fold over the remaining lines continues as
if the line were absent. -/
theorem C6_malformed_lines_skipped (detect : Str → Option Str)
    (m : BucketMap) (line : Str) (rest : List Str)
    (h : (pySplit2 ':' line).length < 3) :
    processLine detect m line = m
    ∧ processLines detect m (line :: rest) = processLines detect m rest := by
  have hlr : lineRecord detect line = none := by
    by_cases hb : pyStrip line = []
    · simp [lineRecord, hb]
    · rcases hps : pySplit2 ':' line with _ | ⟨a, _ | ⟨b, _ | ⟨c, _ | ⟨d, t⟩⟩⟩⟩
      · simp [lineRecord, hb, hps]
      · simp [lineRecord, hb, hps]
      · simp [lineRecord, hb, hps]
      · rw [hps] at h; simp at h
      · simp [lineRecord, hb, hps]
  have h1 : processLine detect m line = m := by
    rw [processLine_eq_lineRecord, hlr]
  exact ⟨h1, by simp [processLines, List.foldl_cons, h1]⟩

/-- Witness for C6 at the delimiter-free line `abc` followed by one more
line. -/
theorem C6_malformed_lines_skipped_witness :
    (pySplit2 ':' "abc".data).length < 3
    ∧ processLine (fun _ => none) [] "abc".data = []
    ∧ processLines (fun _ => none) [] ["abc".data, "x:1:// hola que tal".data] =
        processLines (fun _ => none) [] ["x:1:// hola que tal".data] :=
  ⟨by decide,
   C6_malformed_lines_skipped (fun _ => none) [] "abc".data
     ["x:1:// hola que tal".data] (by decide)⟩

/-- C8: when the content part contains no occurrence of the two-character
delimiter `//`, the regex search fails and the loop body leaves the map
unchanged, so nothing derived from the line can appear in any bucket. -/
theorem C8_no_delimiter_no_record (detect : Str → Option Str)
    (m : BucketMap) (line f ln content : Str)
    (hsplit : pySplit2 ':' line = [f, ln, content])
    (hnod : ¬ "//".data <:+: content) :
    processLine detect m line = m := by
  have has : afterSlashes content = none := by
    apply afterSlashes_eq_none
    intro a b hab
    have hd : "//".data = ['/', '/'] := by decide
    exact hnod ⟨a, b, by rw [hab, hd, List.append_assoc]; rfl⟩
  by_cases hb : pyStrip line = []
  · simp [processLine, hb]
  · simp [processLine, hb, hsplit, has]

/-- Witness for C8 at the line `a.rs:3:let x = 1;` (no `//` in the
content part). -/
theorem C8_no_delimiter_no_record_witness :
    ¬ "//".data <:+: "let x = 1;".data
    ∧ processLine (fun _ => some esKey) [] "a.rs:3:let x = 1;".data = [] :=
  ⟨by decide,
   C8_no_delimiter_no_record (fun _ => some esKey) [] "a.rs:3:let x = 1;".data
     "a.rs".data "3".data "let x = 1;".data (by decide) (by decide)⟩

/-- C7: a line that splits into three parts does so on the first two colon
occurrences: neither the file part nor the line-number part contains a
colon, and the line reassembles as `file ++ ":" ++ num ++ ":" ++ content`,
so every further colon stays inside the content part.  Moreover, for a
content part whose suffix after the first `//` contains no newline (every
search-output line, having been split on newlines, contains none), the
extracted comment text is exactly that suffix with surrounding whitespace
stripped. -/
theorem C7_split_and_extract (line f ln content : Str)
    (hsplit : pySplit2 ':' line = [f, ln, content]) :
    (':' ∉ f ∧ ':' ∉ ln ∧ line = f ++ ':' :: (ln ++ ':' :: content))
    ∧ (∀ rest : Str, afterSlashes content = some rest → '\n' ∉ rest →
        commentTextOf rest = pyStrip rest) := by
  constructor
  · rw [pySplit2] at hsplit
    split at hsplit
    · simp at hsplit
    · rename_i a r1 h1
      split at hsplit
      · simp at hsplit
      · rename_i b r2 h2
        simp only [List.cons.injEq, and_true] at hsplit
        obtain ⟨rfl, rfl, rfl⟩ := hsplit
        obtain ⟨hna, hline⟩ := splitFirst_some ':' line a r1 h1
        obtain ⟨hnb, hr1⟩ := splitFirst_some ':' r1 b r2 h2
        exact ⟨hna, hnb, by rw [hline, hr1]⟩
  · intro rest hrest hnl
    unfold commentTextOf
    have htake : (rest.dropWhile pyIsSpace).takeWhile (fun c => c ≠ '\n') =
        rest.dropWhile pyIsSpace := by
      rw [List.takeWhile_eq_self_iff]
      intro x hx
      have hxr : x ∈ rest := (List.dropWhile_suffix pyIsSpace).mem hx
      have hne : x ≠ '\n' := fun he => hnl (he ▸ hxr)
      simpa using hne
    rw [htake, pyStrip_dropWhile]

/-- Witness for C7 at the line `src/a.rs:12:let y; // valor: dos` (an
extra colon inside the content part). -/
theorem C7_split_and_extract_witness :
    pySplit2 ':' "src/a.rs:12:let y; // valor: dos".data =
      ["src/a.rs".data, "12".data, "let y; // valor: dos".data]
    ∧ (':' ∉ "src/a.rs".data ∧ ':' ∉ "12".data
       ∧ "src/a.rs:12:let y; // valor: dos".data =
           "src/a.rs".data ++ ':' ::
             ("12".data ++ ':' :: "let y; // valor: dos".data))
    ∧ commentTextOf " valor: dos".data = pyStrip " valor: dos".data :=
  ⟨by decide,
   (C7_split_and_extract "src/a.rs:12:let y; // valor: dos".data
     "src/a.rs".data "12".data "let y; // valor: dos".data (by decide)).1,
   (C7_split_and_extract "src/a.rs:12:let y; // valor: dos".data
     "src/a.rs".data "12".data "let y; // valor: dos".data (by decide)).2
     " valor: dos".data (by decide) (by decide)⟩

/-- C9: buckets grow in scan order and without deduplication.  The first
conjunct characterises any bucket of the processed map as the bucket the
map started with, extended — in scan order — by exactly the records the
lines contribute to that language.  The second conjunct: appending the
same line twice contributes its records twice, once per occurrence. -/
theorem C9_insertion_order_no_dedup (detect : Str → Option Str)
    (m : BucketMap) (ls : List Str) (lang : Str) :
    (bucketGet (processLines detect m ls) lang =
       bucketGet m lang ++ recordsDetected detect lang ls)
    ∧ (∀ l : Str, recordsDetected detect lang (ls ++ [l, l]) =
         recordsDetected detect lang ls
           ++ recordsDetected detect lang [l]
           ++ recordsDetected detect lang [l]) := by
  refine ⟨bucketGet_processLines detect m ls lang, fun l => ?_⟩
  have h2 : ([l, l] : List Str) = [l] ++ [l] := rfl
  simp only [recordsDetected]
  rw [h2, List.filterMap_append, List.filterMap_append, List.append_assoc]

/-- C4: the translation summary tallies exactly the `es` bucket grouped by
file.  Every `(file, count)` pair of the tally has `count` equal to the
number of `es` records carrying that file, and its file occurs in the `es`
bucket; conversely every file of an `es` record is listed; and the printed
summary is precisely the header followed by one line per tally entry. -/
theorem C4_translation_summary_counts (m : BucketMap) :
    (∀ p ∈ filesToTranslate m,
        p.2 = fileCount p.1 (bucketGet m esKey)
        ∧ p.1 ∈ (bucketGet m esKey).map CommentRec.file)
    ∧ (∀ r ∈ bucketGet m esKey, r.file ∈ tallyKeys (filesToTranslate m))
    ∧ (generate_translation_todo m).1 =
        "\n=== Files to Translate Summary ===".data ::
          (filesToTranslate m).map (fun p =>
            "\n".data ++ p.1 ++ ": ".data ++ natStr p.2
              ++ " Spanish comments".data) := by
  obtain ⟨hc, hk, hn⟩ := tally_foldl_bump (bucketGet m esKey) []
  have hnodup : (tallyKeys (filesToTranslate m)).Nodup := hn (by simp [tallyKeys])
  refine ⟨fun p hp => ⟨?_, ?_⟩, fun r hr => ?_, rfl⟩
  · have e1 : getCount (filesToTranslate m) p.1 = p.2 :=
      getCount_of_mem (filesToTranslate m) p.1 p.2 hnodup hp
    have e2 : getCount (filesToTranslate m) p.1 =
        fileCount p.1 (bucketGet m esKey) := by
      have := hc p.1
      simpa [filesToTranslate, getCount] using this
    rw [← e1, e2]
  · have hkey : p.1 ∈ tallyKeys (filesToTranslate m) :=
      List.mem_map.mpr ⟨p, hp, rfl⟩
    rcases (hk p.1).mp hkey with h | h
    · simp [tallyKeys] at h
    · exact h
  · exact (hk r.file).mpr (Or.inr (List.mem_map.mpr ⟨r, hr, rfl⟩))

end Spanish
